import Mathlib

/-!
Verification of the lecture-to-notes backend (`server.py`): a shallow
embedding of the request handlers and helper functions, with theorems
settling the specification claims about chunking, synthesis, error
handling, quiz post-processing and PDF text cleaning.

Conventions of the embedding:
* Python exceptions become `Except PyExc`; the broad `except Exception`
  clauses become explicit matches on the error case.
* Calls to the external generative-model service, the downloader and the
  transcript service are parameters of the embedded functions (a call is
  a function argument of type `... → Except PyExc String` or
  `Option String`), since the server treats them as opaque collaborators.
* Python floats (media durations) are embedded as rationals `ℚ`.
* Python strings are `String`; where character-level reasoning is needed
  (regex stripping, `str.replace`) we work on `List Char`, matching
  Python's view of a string as a sequence of code points.
-/

/-- A Python exception value as the server distinguishes them:
`fastapi.HTTPException` (with a status code and a detail string),
or any other exception (carrying its message).  Both are subclasses of
`Exception`, so both are caught by the handlers' `except Exception` clause. -/
inductive PyExc where
  | http (status : Nat) (detail : String)
  | other (msg : String)
deriving DecidableEq, Repr

/-- `server.py` line 256: `chunk = 2400; chunks = math.ceil(dur / chunk)`.
Number of fixed-size segments for a media file of duration `dur` seconds. -/
def numChunks (dur : ℚ) : ℤ := ⌈dur / 2400⌉

/-- `server.py` line 258: `start = i * chunk`. Start time of segment `i`. -/
def segStart (i : ℕ) : ℚ := i * 2400

/-- `server.py` line 258: `end = min((i + 1) * chunk, dur)`.
End time of segment `i` for a media file of duration `dur`. -/
def segEnd (dur : ℚ) (i : ℕ) : ℚ := min ((i + 1) * 2400) dur

/-- `server.py` lines 257–265 (success path of the chunk loop): the loop
body ends in `final_notes.append(res.text)`, so the notes list is built by
appending the model output for chunk `i = 0, 1, …, chunks-1` in order.
`output i` is the model's response text for segment `i`. -/
def collectNotes (chunks : ℕ) (output : ℕ → String) : List String :=
  (List.range chunks).foldl (fun acc i => acc ++ [output i]) []

/-- `server.py` lines 269–276: the synthesis step after the chunk loop.
`gen` is the external model call `synth_model.generate_content` (it sees
the combined text; in the source the combined text is wrapped in the
synthesis prompt).  Returns `(called, final_notes)`: whether the extra
model call was issued, and the notes list afterwards.  An exception from
the model call is swallowed by the inner `except: pass`, leaving the
notes list unchanged. -/
def synthStep (gen : String → Except PyExc String) (final_notes : List String) :
    Bool × List String :=
  if final_notes.length > 1 then
    match gen (String.intercalate "\n\n" final_notes) with
    | .ok t => (true, [t])
    | .error _ => (true, final_notes)
  else (false, final_notes)

/-- `server.py` line 278: the handler's success response body is
`"\n\n".join(final_notes)` after the synthesis step. -/
def lectureResponseNotes (gen : String → Except PyExc String)
    (final_notes : List String) : String :=
  String.intercalate "\n\n" (synthStep gen final_notes).2

/-- Outcome of the `if url:` branch of `process_lecture_api`
(`server.py` lines 232–242): either an immediate transcript-based
response, or falling through to the download path with a (possibly
rewritten) mode, or no action when the mode matches neither branch. -/
inductive UrlOutcome where
  | transcriptPath (txt : String)
  | downloadPath (mode : String)
  | noAction (mode : String)
deriving DecidableEq, Repr

/-- `server.py` lines 232–242: the `if url:` branch.  `transcript` is the
result of `get_transcript(vid)` — `none` models the `None` returned on any
failure (`get_transcript` has a bare `except: return None`).  In mode
`"transcript"`, a truthy transcript (`if txt:` — non-`None` and non-empty)
is summarised directly; otherwise `mode = "audio"` and control falls
through to the download branch.  Modes `"audio"`/`"video"` download. -/
def urlFlow (mode : String) (transcript : Option String) : UrlOutcome :=
  let step : Option String × String :=
    if mode = "transcript" then
      match transcript with
      | some txt => if txt ≠ "" then (some txt, mode) else (none, "audio")
      | none => (none, "audio")
    else (none, mode)
  match step with
  | (some txt, _) => .transcriptPath txt
  | (none, m) => if m = "audio" ∨ m = "video" then .downloadPath m else .noAction m

/-- `server.py` line 259: `cut_media_fast` creates the temp file
`temp_chunk_i`; we track the set of existing temp chunk files by index. -/
def createChunkFile (i : ℕ) (files : List ℕ) : List ℕ := i :: files

/-- `server.py` line 267: `if os.path.exists(c_path): os.unlink(c_path)` —
delete the temp chunk file for index `i` if it exists. -/
def deleteChunkFile (i : ℕ) (files : List ℕ) : List ℕ := files.filter (· ≠ i)

/-- `server.py` lines 257–267: the chunk loop with its `try/finally`.
`body i` is the per-chunk work (upload, poll, `generate_content`) for
chunk `i`, which may raise.  Each iteration creates `temp_chunk_i`, runs
the body, and the `finally` deletes the file whether the body returned or
raised; an exception stops the loop and propagates.  `k` is the number of
chunks still to process, `i` the current index, `notes` the accumulated
notes, `files` the existing temp chunk files. -/
def chunkLoopAux (body : ℕ → Except PyExc String) :
    ℕ → ℕ → List String → List ℕ → Except PyExc (List String) × List ℕ
  | 0, _, notes, files => (.ok notes, files)
  | k + 1, i, notes, files =>
    let files1 := createChunkFile i files
    match body i with
    | .ok s => chunkLoopAux body k (i + 1) (notes ++ [s]) (deleteChunkFile i files1)
    | .error e => (.error e, deleteChunkFile i files1)

/-- The chunk loop over `chunks` segments, starting with no notes and no
temp chunk files. -/
def chunkLoop (body : ℕ → Except PyExc String) (chunks : ℕ) :
    Except PyExc (List String) × List ℕ :=
  chunkLoopAux body chunks 0 [] []

/-- `server.py` lines 261–262: after `genai.upload_file`, the handler
polls `while v_file.state.name == "PROCESSING": time.sleep(2); v_file =
genai.get_file(...)`.  `s k` is the state name observed at the `k`-th
check (`s 0` is the uploaded file's state).  `fuel` bounds the number of
checks we unfold — the source loop itself has no bound.  Returns
`some (totalSleepSeconds, finalState)` if the loop exits within `fuel`
checks, `none` otherwise.  Each re-check is preceded by a fixed
`time.sleep(2)`, so after exiting at check `i` the total slept time is
`2 * i` seconds. -/
def pollLoop (s : ℕ → String) : ℕ → ℕ → Option (ℕ × String)
  | 0, _ => none
  | fuel + 1, i => if s i = "PROCESSING" then pollLoop s fuel (i + 1) else some (2 * i, s i)

/-- `server.py` lines 279 / 314 (and the other POST handlers): the broad
`except Exception as e: raise HTTPException(status_code=500, detail=str(e))`
wrapper around a handler body.  `strE` is Python's `str` on exception
objects (a property of the exception classes, kept as a parameter). -/
def handleTry (strE : PyExc → String) (body : Except PyExc (Nat × String)) :
    Except PyExc (Nat × String) :=
  match body with
  | .ok r => .ok r
  | .error e => .error (.http 500 (strE e))

/-- `server.py` lines 231–279 condensed to the control flow relevant to
error handling: `body` is everything in the outer `try` up to and
including the chunk loop (producing `final_notes`, or raising); `gen` is
the synthesis model call, whose exceptions the nested
`try: … except: pass` swallows.  The result is either the raised
`HTTPException(500, str(e))` or the 200 response with the joined notes. -/
def processLectureResult (strE : PyExc → String)
    (body : Except PyExc (List String)) (gen : String → Except PyExc String) :
    Except PyExc (Nat × String) :=
  match body with
  | .error e => .error (.http 500 (strE e))
  | .ok notes => .ok (200, lectureResponseNotes gen notes)

/-- Python's `\s` (whitespace class) restricted to the ASCII whitespace
characters, which is what matters after the model's option prefixes. -/
def isPySpace (c : Char) : Bool :=
  c == ' ' || c == '\t' || c == '\n' || c == '\r' || c == '\x0b' || c == '\x0c'

/-- `server.py` line 307: `re.sub(r'^[A-D]\)\s*', '', opt)` on the code
points of an option string — if the string starts with a letter `A`–`D`
followed by `)`, that prefix and any following whitespace is removed,
otherwise the string is unchanged. -/
def stripOptPrefix : List Char → List Char
  | c :: d :: rest =>
    if ('A' ≤ c ∧ c ≤ 'D') ∧ d = ')' then rest.dropWhile isPySpace
    else c :: d :: rest
  | s => s

/-- `re.sub(r'^[A-D]\)\s*', '', opt)` on a string. -/
def stripOpt (s : String) : String := String.mk (stripOptPrefix s.data)

/-- A parsed quiz question as `generate_quiz_api` manipulates it
(`server.py` lines 306–311).  `answer_index` is a Python `int`, hence `ℤ`. -/
structure QuizQ where
  question : String
  options : List String
  answer_index : ℤ
deriving DecidableEq, Repr

/-- `server.py` lines 307–311: per-question post-processing.  All options
are prefix-stripped; then, only when `0 <= answer_index < len(options)`,
the correct option's text is saved, the options are shuffled
(`random.shuffle`, modelled by the parameter `shuffle`), and
`answer_index` is reset to `options.index(correct_text)` — the first
index of that text in the shuffled list.  Out-of-range questions keep
their stripped options unshuffled and their `answer_index` unchanged. -/
def postProcessQuestion (shuffle : List String → List String) (q : QuizQ) : QuizQ :=
  let opts := q.options.map stripOpt
  if 0 ≤ q.answer_index ∧ q.answer_index < (opts.length : ℤ) then
    let correct_text := opts.getD q.answer_index.toNat ""
    let shuffled := shuffle opts
    { q with options := shuffled, answer_index := (shuffled.indexOf correct_text : ℤ) }
  else { q with options := opts }

/-- Python's `str.replace(pat, rep)` on code points: replace each
non-overlapping occurrence of `pat`, scanning left to right. -/
def pyReplace (pat rep : List Char) : List Char → List Char
  | [] => []
  | c :: rest =>
    if pat ≠ [] ∧ pat.isPrefixOf (c :: rest) then
      rep ++ pyReplace pat rep (rest.drop (pat.length - 1))
    else c :: pyReplace pat rep rest
termination_by s => s.length
decreasing_by
  · simp only [List.length_drop, List.length_cons]; omega
  · simp only [List.length_cons]; omega

/-- `server.py` line 198:
`markdown_text.replace('📼', '').replace('📄', '').replace('?', '')`. -/
def pyCleanChars (s : List Char) : List Char :=
  pyReplace ['?'] [] (pyReplace ['📄'] [] (pyReplace ['📼'] [] s))

/-- The cleaned text as a string. -/
def cleanText (s : String) : String := String.mk (pyCleanChars s.data)

/-- Python's `str.split('\n')` on code points: the list of
newline-separated pieces (an empty string yields one empty piece). -/
def splitLines : List Char → List (List Char)
  | [] => [[]]
  | c :: rest =>
    if c = '\n' then [] :: splitLines rest
    else
      match splitLines rest with
      | [] => [[c]]
      | h :: t => (c :: h) :: t

/-- Python's `line.startswith('#')`. -/
def startsWithHash : List Char → Bool
  | '#' :: _ => true
  | _ => false

/-- One rendering operation of `convert_markdown_to_pdf`: a call to
`pdf.chapter_title(line)` or `pdf.chapter_body(current_body)`. -/
inductive DocOp where
  | chapterTitle (line : String)
  | chapterBody (body : String)
deriving DecidableEq, Repr

/-- `server.py` lines 199–204: the line loop of `convert_markdown_to_pdf`.
Lines starting with `#` flush the accumulated body (if non-empty) and emit
a chapter title; other lines are accumulated into `current_body` with a
trailing newline; a final non-empty body is flushed at the end. -/
def buildDocAux : List (List Char) → List Char → List DocOp
  | [], current_body =>
    if current_body ≠ [] then [.chapterBody (String.mk current_body)] else []
  | line :: rest, current_body =>
    if startsWithHash line then
      (if current_body ≠ [] then [.chapterBody (String.mk current_body)] else [])
        ++ .chapterTitle (String.mk line) :: buildDocAux rest []
    else buildDocAux rest (current_body ++ line ++ ['\n'])

/-- `server.py` lines 196–204: clean the markdown text, split it into
lines, and produce the sequence of PDF rendering operations. -/
def buildDoc (markdown_text : String) : List DocOp :=
  buildDocAux (splitLines (pyCleanChars markdown_text.data)) []

/-- `server.py` lines 196–205 / 327–332: the PDF bytes returned by
`/generate-pdf`.  The FPDF layout engine (fonts, page breaks, byte
serialisation) is an external library, embedded as the parameter
`render` from the rendering operations to the output bytes; everything
the repository itself does is the deterministic construction `buildDoc`. -/
def convert_markdown_to_pdf (render : List DocOp → List ℕ)
    (markdown_text : String) : List ℕ :=
  render (buildDoc markdown_text)

/-! ## Helper lemmas -/

/-- Folding appends of mapped elements onto an accumulator. -/
theorem foldl_append_singleton (f : ℕ → String) (l : List ℕ) (acc : List String) :
    l.foldl (fun a i => a ++ [f i]) acc = acc ++ l.map f := by
  induction l generalizing acc with
  | nil => simp
  | cons x xs ih => simp [ih]

/-- The chunk-loop notes list is the per-segment outputs in segment order. -/
theorem collectNotes_eq_map (chunks : ℕ) (output : ℕ → String) :
    collectNotes chunks output = (List.range chunks).map output :=
  by simpa using foldl_append_singleton output (List.range chunks) []

/-- A sample successful synthesis model call, for witnesses. -/
def genOk : String → Except PyExc String := fun _ => .ok "merged"

/-! ## C2 -/

/-- C2: the synthesis (merge) model call is issued if and only if more than
one per-segment note was collected; with zero or one notes no synthesis
call is made and the response body is the notes joined with `"\n\n"`; when
the synthesis call succeeds with text `t`, the response body is `t`. -/
theorem synth_call_iff_multiple (gen : String → Except PyExc String)
    (final_notes : List String) :
    ((synthStep gen final_notes).1 = true ↔ final_notes.length > 1) ∧
    (final_notes.length ≤ 1 →
      lectureResponseNotes gen final_notes =
        String.intercalate "\n\n" final_notes) ∧
    (∀ t, final_notes.length > 1 →
      gen (String.intercalate "\n\n" final_notes) = .ok t →
      lectureResponseNotes gen final_notes = t) := by
  refine ⟨?_, ?_, ?_⟩
  · unfold synthStep
    by_cases h : final_notes.length > 1
    · rw [if_pos h]
      refine iff_of_true ?_ h
      cases gen (String.intercalate "\n\n" final_notes) <;> rfl
    · rw [if_neg h]
      simp [h]
  · intro hle
    unfold lectureResponseNotes synthStep
    rw [if_neg (by omega)]
  · intro t hgt hok
    unfold lectureResponseNotes synthStep
    rw [if_pos hgt, hok]
    rfl

/-- Witness for C2 at concrete inputs: two notes trigger the call and the
merged text is returned; a single note makes no call and is returned
joined (i.e. as itself). -/
theorem synth_call_iff_multiple_witness :
    (((synthStep genOk ["a", "b"]).1 = true ↔ ["a", "b"].length > 1) ∧
      (["a", "b"].length ≤ 1 →
        lectureResponseNotes genOk ["a", "b"] =
          String.intercalate "\n\n" ["a", "b"]) ∧
      (∀ t, ["a", "b"].length > 1 →
        genOk (String.intercalate "\n\n" ["a", "b"]) = .ok t →
        lectureResponseNotes genOk ["a", "b"] = t)) ∧
    lectureResponseNotes genOk ["a", "b"] = "merged" :=
  ⟨synth_call_iff_multiple genOk ["a", "b"],
    (synth_call_iff_multiple genOk ["a", "b"]).2.2 "merged" (by decide) rfl⟩

/-! ## C3 -/

/-- C3: for a media source cut into `chunks` segments whose per-segment
model output is `output i`, the notes list collected by the chunk loop has
exactly `chunks` entries and its `i`-th entry is the output for segment
`i`, so concatenation preserves segment (time) order. -/
theorem collectNotes_in_order (chunks : ℕ) (output : ℕ → String) :
    (collectNotes chunks output).length = chunks ∧
    ∀ i, i < chunks → (collectNotes chunks output)[i]? = some (output i) := by
  rw [collectNotes_eq_map]
  refine ⟨by simp, fun i hi => ?_⟩
  simp [List.getElem?_map, List.getElem?_range, hi]

/-- Witness for C3 at `chunks = 3`: the middle entry is segment 1's output. -/
theorem collectNotes_in_order_witness :
    (collectNotes 3 (fun i => toString i)).length = 3 ∧
    (collectNotes 3 (fun i => toString i))[1]? = some "1" :=
  ⟨(collectNotes_in_order 3 (fun i => toString i)).1,
    (collectNotes_in_order 3 (fun i => toString i)).2 1 (by decide)⟩

/-! ## C5 -/

/-- C5: with a URL in mode `"transcript"`, when `get_transcript` returns
`None` (any failure) — or the falsy empty transcript — the handler raises
no error: it silently becomes mode `"audio"` and proceeds down the
download-and-chunk path. -/
theorem transcript_failure_falls_back (transcript : Option String)
    (h : transcript = none ∨ transcript = some "") :
    urlFlow "transcript" transcript = .downloadPath "audio" := by
  rcases h with h | h <;> subst h <;> rfl

/-- Witness for C5: a failed transcript fetch (`None`) yields the audio
download path. -/
theorem transcript_failure_falls_back_witness :
    urlFlow "transcript" none = .downloadPath "audio" :=
  transcript_failure_falls_back none (Or.inl rfl)

/-! ## C6 -/

/-- The temp chunk files existing after running the loop were already
present before it: every file the loop creates, its `finally` deletes,
whether the body returned or raised. -/
theorem chunkLoopAux_files_subset (body : ℕ → Except PyExc String) :
    ∀ (k i : ℕ) (notes : List String) (files : List ℕ),
      (chunkLoopAux body k i notes files).2 ⊆ files := by
  intro k
  induction k with
  | zero => intro i notes files x hx; exact hx
  | succ k ih =>
    intro i notes files
    simp only [chunkLoopAux]
    cases body i with
    | ok s =>
      intro x hx
      have := ih (i + 1) (notes ++ [s]) (deleteChunkFile i (createChunkFile i files)) hx
      have hf : deleteChunkFile i (createChunkFile i files) ⊆ files := by
        intro y hy
        simp only [deleteChunkFile, createChunkFile, List.mem_filter,
          List.mem_cons, decide_eq_true_eq] at hy
        rcases hy with ⟨hy1 | hy1, hy2⟩
        · exact absurd hy1 hy2
        · exact hy1
      exact hf this
    | error e =>
      intro x hx
      simp only [deleteChunkFile, createChunkFile, List.mem_filter,
        List.mem_cons, decide_eq_true_eq] at hx
      rcases hx with ⟨hx1 | hx1, hx2⟩
      · exact absurd hx1 hx2
      · exact hx1

/-- If the first `j` bodies succeed and body `i + j` raises `e`, the loop
starting at index `i` with at least `j + 1` iterations left returns that
error: the per-chunk `finally` performs no recovery beyond file deletion
and the exception propagates. -/
theorem chunkLoopAux_error_propagates (body : ℕ → Except PyExc String) :
    ∀ (j k i : ℕ) (notes : List String) (files : List ℕ) (e : PyExc),
      j < k → body (i + j) = .error e →
      (∀ m, m < j → ∃ s, body (i + m) = .ok s) →
      (chunkLoopAux body k i notes files).1 = .error e := by
  intro j
  induction j with
  | zero =>
    intro k i notes files e hjk herr _
    obtain ⟨k', rfl⟩ : ∃ k', k = k' + 1 := ⟨k - 1, by omega⟩
    simp only [chunkLoopAux]
    rw [show i + 0 = i from rfl] at herr
    rw [herr]
  | succ j ih =>
    intro k i notes files e hjk herr hok
    obtain ⟨k', rfl⟩ : ∃ k', k = k' + 1 := ⟨k - 1, by omega⟩
    obtain ⟨s, hs⟩ := hok 0 (Nat.succ_pos j)
    rw [show i + 0 = i from rfl] at hs
    simp only [chunkLoopAux, hs]
    apply ih k' (i + 1) _ _ e (by omega)
    · rw [show i + 1 + j = i + (j + 1) from by omega]; exact herr
    · intro m hm
      obtain ⟨s', hs'⟩ := hok (m + 1) (by omega)
      exact ⟨s', by rw [show i + 1 + m = i + (m + 1) from by omega]; exact hs'⟩

/-- C6: for every per-chunk body and chunk count, after the loop no
`temp_chunk_i` file remains — deletion happens after each segment whether
its body returned or raised — and when the first failing chunk raises
`e`, the loop's result is that propagated exception. -/
theorem chunk_files_deleted_and_error_propagates
    (body : ℕ → Except PyExc String) (chunks : ℕ) :
    (chunkLoop body chunks).2 = [] ∧
    (∀ j e, j < chunks → body j = .error e →
      (∀ m, m < j → ∃ s, body m = .ok s) →
      (chunkLoop body chunks).1 = .error e) := by
  constructor
  · have h := chunkLoopAux_files_subset body chunks 0 [] []
    exact List.eq_nil_iff_forall_not_mem.mpr fun x hx => List.not_mem_nil x (h hx)
  · intro j e hj herr hok
    exact chunkLoopAux_error_propagates body j chunks 0 [] [] e hj
      (by simpa using herr) (by simpa using hok)

/-- Witness for C6 at a concrete body failing on chunk 1 of 3: no temp
chunk file survives and the error propagates. -/
theorem chunk_files_deleted_witness :
    (chunkLoop
        (fun i => if i = 0 then .ok "n0" else .error (.other "upload failed"))
        3).2 = [] ∧
    (chunkLoop
        (fun i => if i = 0 then .ok "n0" else .error (.other "upload failed"))
        3).1 = .error (.other "upload failed") :=
  ⟨(chunk_files_deleted_and_error_propagates
      (fun i => if i = 0 then .ok "n0" else .error (.other "upload failed")) 3).1,
    (chunk_files_deleted_and_error_propagates
      (fun i => if i = 0 then .ok "n0" else .error (.other "upload failed")) 3).2
      1 (.other "upload failed") (by decide) rfl
      (fun m hm => ⟨"n0", by
        have hm0 : m = 0 := by omega
        subst hm0
        rfl⟩)⟩

/-! ## C4 (corrected) -/

/-- Python's `str` on the exception values the handlers construct:
`starlette.HTTPException.__str__` renders `"{status_code}: {detail}"`,
and a plain exception renders its message. -/
def strExc : PyExc → String
  | .http s d => toString s ++ ": " ++ d
  | .other m => m

/-- Counterexample to C4 as stated: an exception raised inside the
handler's `try` block — by the synthesis model call, whose surrounding
`try: … except: pass` swallows it — does **not** produce an HTTP 500: the
handler returns a 200 response with the unsynthesised notes. -/
theorem broad_500_counterexample :
    processLectureResult strExc (.ok ["a", "b"])
        (fun _ => .error (.other "boom")) = .ok (200, "a\n\nb") := by
  rfl

/-- C4 (amended): every exception `e` that reaches the handler's outer
`try` block uncaught — i.e. the body of `/process-lecture` up to the chunk
loop raises, or the body of `/generate-quiz` raises; this includes the
`HTTPException`s with status 400 — makes the handler respond with
`HTTPException(500, str(e))`: a generic 500 whose detail is the
exception's message string. -/
theorem broad_500_conversion (strE : PyExc → String)
    (body : Except PyExc (List String)) (gen : String → Except PyExc String)
    (qbody : Except PyExc (Nat × String)) (e : PyExc) :
    (body = .error e →
      processLectureResult strE body gen = .error (.http 500 (strE e))) ∧
    (qbody = .error e →
      handleTry strE qbody = .error (.http 500 (strE e))) :=
  ⟨fun hb => by rw [hb]; rfl, fun hq => by rw [hq]; rfl⟩

/-- Witness for the amended C4: the 400 `HTTPException("Download failed.")`
raised inside the try block comes back as a 500 whose detail is the
exception's string form, in both handlers. -/
theorem broad_500_conversion_witness :
    processLectureResult strExc (.error (.http 400 "Download failed.")) genOk
        = .error (.http 500 "400: Download failed.") ∧
    handleTry strExc (.error (.http 400 "Download failed."))
        = .error (.http 500 "400: Download failed.") :=
  ⟨(broad_500_conversion strExc (.error (.http 400 "Download failed.")) genOk
      (.error (.http 400 "Download failed.")) (.http 400 "Download failed.")).1 rfl,
    (broad_500_conversion strExc (.error (.http 400 "Download failed.")) genOk
      (.error (.http 400 "Download failed.")) (.http 400 "Download failed.")).2 rfl⟩

/-! ## C7 -/

/-- A sample rendering backend for witnesses: the length of each
operation's text. -/
def renderLengths : List DocOp → List ℕ :=
  List.map fun op =>
    match op with
    | .chapterTitle s => s.length
    | .chapterBody s => s.length

/-- C7: PDF generation is a deterministic function of the notes text
alone — `convert_markdown_to_pdf` takes no other input and consults no
other state, so two calls on identical notes produce identical bytes
(for any fixed rendering backend). -/
theorem pdf_deterministic (render : List DocOp → List ℕ) (notes1 notes2 : String)
    (h : notes1 = notes2) :
    convert_markdown_to_pdf render notes1 = convert_markdown_to_pdf render notes2 := by
  rw [h]

/-- Witness for C7 at a concrete document. -/
theorem pdf_deterministic_witness :
    convert_markdown_to_pdf renderLengths "## Title\nBody **bold** text"
      = convert_markdown_to_pdf renderLengths "## Title\nBody **bold** text" :=
  pdf_deterministic renderLengths _ _ rfl

/-! ## C8 -/

/-- If every state checked before index `n` is `"PROCESSING"` and the state
at `n` is not, the poll loop started at index `i ≤ n` with enough fuel
exits exactly at check `n`, having slept `2 * n` seconds in total. -/
theorem pollLoop_exits_at_first (s : ℕ → String) :
    ∀ (fuel i n : ℕ), i ≤ n → (∀ k, k < n → s k = "PROCESSING") →
      s n ≠ "PROCESSING" → n < i + fuel →
      pollLoop s fuel i = some (2 * n, s n) := by
  intro fuel
  induction fuel with
  | zero => intro i n hin _ _ hlt; omega
  | succ fuel ih =>
    intro i n hin hall hn hlt
    by_cases hi : i = n
    · subst hi
      simp only [pollLoop, if_neg hn]
    · have : s i = "PROCESSING" := hall i (by omega)
      simp only [pollLoop, if_pos this]
      exact ih (i + 1) n (by omega) hall hn (by omega)

/-- If every checked state is `"PROCESSING"`, the loop never exits,
whatever fuel it is given. -/
theorem pollLoop_never_exits (s : ℕ → String) (hall : ∀ k, s k = "PROCESSING") :
    ∀ (fuel i : ℕ), pollLoop s fuel i = none := by
  intro fuel
  induction fuel with
  | zero => intro i; rfl
  | succ fuel ih =>
    intro i
    simp only [pollLoop, if_pos (hall i)]
    exact ih (i + 1)

/-- C8: the post-upload poll loop checks the remote file state, sleeping a
fixed 2 seconds before each re-check, and exits exactly when the state is
first not `"PROCESSING"` (after `2 * n` seconds of sleep when that happens
at check `n`); if the state never leaves `"PROCESSING"`, the loop runs
forever — the handler imposes no timeout on the number of polls. -/
theorem poll_loop_fixed_sleep_no_timeout (s : ℕ → String) :
    (∀ n fuel, (∀ k, k < n → s k = "PROCESSING") → s n ≠ "PROCESSING" →
      n < fuel → pollLoop s fuel 0 = some (2 * n, s n)) ∧
    ((∀ k, s k = "PROCESSING") → ∀ fuel, pollLoop s fuel 0 = none) :=
  ⟨fun n fuel hall hn hlt =>
      pollLoop_exits_at_first s fuel 0 n (Nat.zero_le n) hall hn (by omega),
    fun hall fuel => pollLoop_never_exits s hall fuel 0⟩

/-- A sample state sequence for the C8 witness: two `"PROCESSING"` checks,
then `"ACTIVE"`. -/
def pollStatesW : ℕ → String := fun k => if k < 2 then "PROCESSING" else "ACTIVE"

/-- Witness for C8: with the sample sequence the loop exits at the third
check having slept 4 seconds; with an always-`"PROCESSING"` sequence it is
still running after any amount of fuel. -/
theorem poll_loop_fixed_sleep_no_timeout_witness :
    pollLoop pollStatesW 5 0 = some (4, "ACTIVE") ∧
    pollLoop (fun _ => "PROCESSING") 7 0 = none :=
  ⟨by
    have h := (poll_loop_fixed_sleep_no_timeout pollStatesW).1 2 5
      (by decide) (by decide) (by decide)
    simpa [pollStatesW] using h,
    (poll_loop_fixed_sleep_no_timeout (fun _ => "PROCESSING")).2 (fun _ => rfl) 7⟩

/-! ## C10 -/

/-- `str.replace(c, '')` for a single code point is exactly filtering that
code point out. -/
theorem pyReplace_single_eq_filter (a : Char) : ∀ s : List Char,
    pyReplace [a] [] s = s.filter (fun c => c ≠ a) := by
  intro s
  induction s with
  | nil => simp [pyReplace]
  | cons c rest ih =>
    by_cases hac : a = c
    · subst hac
      have hcond : ([a] : List Char) ≠ [] ∧ ([a] : List Char).isPrefixOf (a :: rest) := by
        refine ⟨by simp, ?_⟩
        simp [List.isPrefixOf]
      rw [pyReplace, if_pos hcond]
      simp [ih]
    · have hcond : ¬(([a] : List Char) ≠ [] ∧ ([a] : List Char).isPrefixOf (c :: rest)) := by
        simp [List.isPrefixOf, hac]
      rw [pyReplace, if_neg hcond, ih]
      simp [List.filter_cons, Ne.symm hac]

/-- Every code point of a piece of `split('\n')` is a code point of the
split string. -/
theorem splitLines_chars_subset : ∀ (s : List Char), ∀ l ∈ splitLines s, ∀ c ∈ l, c ∈ s := by
  intro s
  induction s with
  | nil =>
    intro l hl c hc
    simp only [splitLines, List.mem_singleton] at hl
    subst hl
    exact absurd hc (List.not_mem_nil c)
  | cons a rest ih =>
    intro l hl c hc
    by_cases ha : a = '\n'
    · simp only [splitLines, if_pos ha, List.mem_cons] at hl
      rcases hl with rfl | hl
      · exact absurd hc (List.not_mem_nil c)
      · exact List.mem_cons_of_mem a (ih l hl c hc)
    · cases hr : splitLines rest with
      | nil =>
        simp only [splitLines, if_neg ha, hr, List.mem_singleton] at hl
        subst hl
        rcases List.mem_singleton.mp hc with rfl
        exact List.mem_cons_self _ _
      | cons h t =>
        simp only [splitLines, if_neg ha, hr, List.mem_cons] at hl
        rcases hl with rfl | hl
        · rcases List.mem_cons.mp hc with rfl | hch
          · exact List.mem_cons_self _ _
          · have hh : h ∈ splitLines rest := by rw [hr]; exact List.mem_cons_self h t
            exact List.mem_cons_of_mem _ (ih h hh c hch)
        · have ht : l ∈ splitLines rest := by rw [hr]; exact List.mem_cons_of_mem h hl
          exact List.mem_cons_of_mem _ (ih l ht c hc)

/-- Deleting a single code point never adds an occurrence of another. -/
theorem pyReplace_single_subset (a : Char) (l : List Char) :
    pyReplace [a] [] l ⊆ l := by
  rw [pyReplace_single_eq_filter]
  exact List.filter_subset' l

/-- A deleted code point does not occur in the result. -/
theorem pyReplace_single_not_mem (a : Char) (l : List Char) :
    a ∉ pyReplace [a] [] l := by
  rw [pyReplace_single_eq_filter]
  intro hmem
  have := List.of_mem_filter hmem
  simp at this

/-- C10: `convert_markdown_to_pdf` removes every `?` (and every `📼` and
`📄`) from the notes before the line loop runs, so no line handed to the
PDF rendering operations — hence no question mark originating from the
notes — contains `?`. -/
theorem question_marks_removed (notes : String) :
    ('?' ∉ pyCleanChars notes.data ∧ '📼' ∉ pyCleanChars notes.data ∧
      '📄' ∉ pyCleanChars notes.data) ∧
    ∀ line ∈ splitLines (pyCleanChars notes.data), '?' ∉ line := by
  have hq : '?' ∉ pyCleanChars notes.data := pyReplace_single_not_mem '?' _
  refine ⟨⟨hq, ?_, ?_⟩, fun line hline hc => hq (splitLines_chars_subset _ line hline '?' hc)⟩
  · intro hmem
    exact pyReplace_single_not_mem '📼' _
      (pyReplace_single_subset '📄' _ (pyReplace_single_subset '?' _ hmem))
  · intro hmem
    exact pyReplace_single_not_mem '📄' _ (pyReplace_single_subset '?' _ hmem)

/-- Witness for C10 on the concrete notes `"Why?"`: the cleaned text is
`"Why"` and the single resulting line contains no question mark. -/
theorem question_marks_removed_witness :
    ('?' ∉ pyCleanChars "Why?".data ∧ '📼' ∉ pyCleanChars "Why?".data ∧
      '📄' ∉ pyCleanChars "Why?".data) ∧
    '?' ∉ ['W', 'h', 'y'] :=
  ⟨(question_marks_removed "Why?").1,
    (question_marks_removed "Why?").2 ['W', 'h', 'y'] (by
      have h : pyCleanChars "Why?".data = ['W', 'h', 'y'] := by
        simp [pyCleanChars, pyReplace, List.isPrefixOf]
      rw [h]
      decide)⟩

/-! ## C9 (corrected) -/

/-- Counterexample to C9 as stated: for a question whose `answer_index` is
out of range (here 5 with 2 options) the options are **not** shuffled —
with the shuffle producing the reversal permutation, the returned options
are still in stripped original order, not the shuffled order the claim
asserts. -/
theorem quiz_shuffle_counterexample :
    (postProcessQuestion List.reverse ⟨"Q", ["x", "y"], 5⟩).options = ["x", "y"] ∧
    List.reverse ((QuizQ.mk "Q" ["x", "y"] 5).options.map stripOpt) = ["y", "x"] ∧
    (postProcessQuestion List.reverse ⟨"Q", ["x", "y"], 5⟩).options ≠
      List.reverse ((QuizQ.mk "Q" ["x", "y"] 5).options.map stripOpt) := by
  decide

/-- C9 (amended): for any shuffle result that is a permutation of the
prefix-stripped options — every permutation `random.shuffle` can produce —
a question with in-range `answer_index` comes back with the shuffled
options and with `options[answer_index]` equal to the text of the
originally correct option after prefix-stripping; a question with
out-of-range `answer_index` comes back with its options prefix-stripped
but **unshuffled**, and its `answer_index` unchanged. -/
theorem quiz_answer_preserved (shuffle : List String → List String) (q : QuizQ)
    (hperm : (shuffle (q.options.map stripOpt)).Perm (q.options.map stripOpt)) :
    (0 ≤ q.answer_index ∧ q.answer_index < ((q.options.map stripOpt).length : ℤ) →
      (postProcessQuestion shuffle q).options = shuffle (q.options.map stripOpt) ∧
      (postProcessQuestion shuffle q).options.getD
          (postProcessQuestion shuffle q).answer_index.toNat "" =
        (q.options.map stripOpt).getD q.answer_index.toNat "") ∧
    (¬(0 ≤ q.answer_index ∧ q.answer_index < ((q.options.map stripOpt).length : ℤ)) →
      (postProcessQuestion shuffle q).options = q.options.map stripOpt ∧
      (postProcessQuestion shuffle q).answer_index = q.answer_index) := by
  constructor
  · intro hin
    constructor
    · unfold postProcessQuestion
      rw [if_pos hin]
    · set opts := q.options.map stripOpt with hopts
      have hlt : q.answer_index.toNat < opts.length := by omega
      have hmem : opts.getD q.answer_index.toNat "" ∈ opts := by
        rw [List.getD_eq_getElem _ _ hlt]
        exact List.getElem_mem hlt
      have hmem2 : opts.getD q.answer_index.toNat "" ∈ shuffle opts := hperm.mem_iff.mpr hmem
      have hidx : (shuffle opts).indexOf (opts.getD q.answer_index.toNat "") <
          (shuffle opts).length := List.indexOf_lt_length.mpr hmem2
      unfold postProcessQuestion
      rw [if_pos hin]
      simp only
      rw [Int.toNat_natCast]
      rw [List.getD_eq_getElem _ _ hidx]
      exact List.getElem_indexOf hidx
  · intro hout
    unfold postProcessQuestion
    rw [if_neg hout]
    exact ⟨rfl, rfl⟩

/-- Witness for the amended C9 on a concrete in-range question: option
`"B) x"` is stripped to `"x"`, the options are reversed by the shuffle,
and the returned `answer_index` still points at `"x"`. -/
theorem quiz_answer_preserved_witness :
    (postProcessQuestion List.reverse ⟨"Q", ["B) x", "y"], 0⟩).options =
      List.reverse ((QuizQ.mk "Q" ["B) x", "y"] 0).options.map stripOpt) ∧
    (postProcessQuestion List.reverse ⟨"Q", ["B) x", "y"], 0⟩).options.getD
        (postProcessQuestion List.reverse ⟨"Q", ["B) x", "y"], 0⟩).answer_index.toNat "" =
      ((QuizQ.mk "Q" ["B) x", "y"] 0).options.map stripOpt).getD
        (QuizQ.mk "Q" ["B) x", "y"] 0).answer_index.toNat "" :=
  (quiz_answer_preserved List.reverse ⟨"Q", ["B) x", "y"], 0⟩ (by decide)).1 (by decide)

/-! ## C1 -/

/-- C1: for a media file of detected duration `dur > 0`, the handler cuts
`⌈dur / 2400⌉` segments (at least one), where segment `i` covers
`[i*2400, min((i+1)*2400, dur)]`: every segment but the last is exactly
2400 seconds and abuts the next (`segEnd i = segStart (i+1)`), earlier
segments end no later than later ones start (no overlap), and the
segments together cover exactly `[0, dur]`. -/
theorem segmentation_covers_duration (dur : ℚ) (hdur : 0 < dur) :
    1 ≤ numChunks dur ∧
    (∀ i : ℕ, (i : ℤ) + 1 < numChunks dur →
      segEnd dur i - segStart i = 2400 ∧ segEnd dur i = segStart (i + 1)) ∧
    (∀ i j : ℕ, i < j → segEnd dur i ≤ segStart j) ∧
    (⋃ i ∈ Finset.range (numChunks dur).toNat,
        Set.Icc (segStart i) (segEnd dur i)) = Set.Icc 0 dur := by
  have h2400 : (0:ℚ) < 2400 := by norm_num
  have hn1 : 1 ≤ numChunks dur := by
    have : 0 < ⌈dur / 2400⌉ := Int.ceil_pos.mpr (div_pos hdur h2400)
    unfold numChunks
    omega
  have hceil : dur ≤ ((numChunks dur : ℤ) : ℚ) * 2400 := by
    have h := Int.le_ceil (dur / 2400)
    have h2 : dur / 2400 * 2400 ≤ (⌈dur / 2400⌉ : ℚ) * 2400 :=
      mul_le_mul_of_nonneg_right h (le_of_lt h2400)
    unfold numChunks
    calc dur = dur / 2400 * 2400 := by field_simp
    _ ≤ (⌈dur / 2400⌉ : ℚ) * 2400 := h2
  refine ⟨hn1, ?_, ?_, ?_⟩
  · intro i hi
    have h1 : ((i : ℤ) + 1 : ℚ) < dur / 2400 := by
      exact_mod_cast Int.lt_ceil.mp hi
    rw [lt_div_iff₀ h2400] at h1
    have hlt : ((i:ℚ) + 1) * 2400 < dur := by push_cast at h1 ⊢; linarith
    have hmin : segEnd dur i = ((i:ℚ) + 1) * 2400 := by
      unfold segEnd
      exact min_eq_left (le_of_lt hlt)
    constructor
    · rw [hmin]; unfold segStart; ring
    · rw [hmin]; unfold segStart; push_cast; ring
  · intro i j hij
    have hle : ((i:ℚ) + 1) * 2400 ≤ (j:ℚ) * 2400 := by
      have : ((i:ℚ) + 1) ≤ (j:ℚ) := by exact_mod_cast hij
      nlinarith
    exact le_trans (min_le_left _ _) hle
  · ext t
    simp only [Set.mem_iUnion, Finset.mem_range, Set.mem_Icc, exists_prop]
    constructor
    · rintro ⟨i, _, hle, hge⟩
      constructor
      · refine le_trans ?_ hle
        unfold segStart
        positivity
      · exact le_trans hge (min_le_right _ _)
    · rintro ⟨ht0, htd⟩
      have hnz : ((numChunks dur).toNat : ℤ) = numChunks dur :=
        Int.toNat_of_nonneg (by omega)
      have hm0 : 0 ≤ ⌊t / 2400⌋ := Int.floor_nonneg.mpr (by positivity)
      have hmz : ((⌊t / 2400⌋.toNat : ℕ) : ℤ) = ⌊t / 2400⌋ := Int.toNat_of_nonneg hm0
      refine ⟨min ⌊t / 2400⌋.toNat ((numChunks dur).toNat - 1), by omega, ?_, ?_⟩
      · unfold segStart
        have hile : ((min ⌊t / 2400⌋.toNat ((numChunks dur).toNat - 1) : ℕ) : ℚ) ≤
            t / 2400 := by
          have h1 : ((min ⌊t / 2400⌋.toNat ((numChunks dur).toNat - 1) : ℕ) : ℤ) ≤
              ⌊t / 2400⌋ := by omega
          have h2 : ((min ⌊t / 2400⌋.toNat ((numChunks dur).toNat - 1) : ℕ) : ℚ) ≤
              (⌊t / 2400⌋ : ℚ) := by exact_mod_cast h1
          exact le_trans h2 (Int.floor_le _)
        rw [le_div_iff₀ h2400] at hile
        exact hile
      · refine le_min ?_ htd
        by_cases hcase : ⌊t / 2400⌋.toNat ≤ (numChunks dur).toNat - 1
        · rw [min_eq_left hcase]
          have h1 : t / 2400 < (⌊t / 2400⌋ : ℚ) + 1 := Int.lt_floor_add_one _
          have h2 : ((⌊t / 2400⌋.toNat : ℕ) : ℚ) = (⌊t / 2400⌋ : ℚ) := by exact_mod_cast hmz
          rw [div_lt_iff₀ h2400] at h1
          rw [h2]
          linarith
        · push_neg at hcase
          rw [min_eq_right (by omega)]
          have h1 : (((numChunks dur).toNat - 1 : ℕ) : ℚ) + 1 =
              ((numChunks dur).toNat : ℚ) := by
            have h0 : ((numChunks dur).toNat - 1 : ℕ) + 1 = (numChunks dur).toNat := by omega
            exact_mod_cast congrArg (Nat.cast : ℕ → ℚ) h0
          rw [h1]
          have h2 : ((numChunks dur).toNat : ℚ) = ((numChunks dur : ℤ) : ℚ) := by
            exact_mod_cast hnz
          rw [h2]
          linarith

/-- Witness for C1 at `dur = 5000` seconds: three segments, the first of
full size 2400 abutting the second, segment 1 ending no later than
segment 2 starts, and the three windows covering exactly `[0, 5000]`. -/
theorem segmentation_covers_duration_witness :
    0 < (5000:ℚ) ∧ numChunks 5000 = 3 ∧
    (segEnd 5000 0 - segStart 0 = 2400 ∧ segEnd 5000 0 = segStart 1) ∧
    segEnd 5000 1 ≤ segStart 2 ∧
    (⋃ i ∈ Finset.range (numChunks 5000).toNat,
        Set.Icc (segStart i) (segEnd 5000 i)) = Set.Icc 0 5000 := by
  have hn : numChunks 5000 = 3 := by
    unfold numChunks
    norm_num [Int.ceil_eq_iff]
  have h := segmentation_covers_duration 5000 (by norm_num)
  exact ⟨by norm_num, hn, h.2.1 0 (by rw [hn]; norm_num), h.2.2.1 1 2 (by norm_num),
    h.2.2.2⟩
